import Mathlib

/-!
Shallow embedding of the gamehack_librs library core
(`src/lib.rs`, `src/utils.rs`, `src/errors.rs`, `src/types.rs`).

Machine words are modelled as `Nat` with explicit reduction modulo `2 ^ 64`
(the crate targets 64-bit Windows, so `usize` is 8 bytes wide).  Foreign OS
capabilities (`EnumProcesses`, `OpenProcess`, `GetModuleBaseNameA`,
`VirtualQueryEx`, `ReadProcessMemory`, `WriteProcessMemory`) are modelled as
explicit environments supplying their observable outputs; the library code
itself is translated statement by statement.
-/

namespace Gamehack

/-- Number of values of the 64-bit machine word type `usize`. -/
def W : Nat := 2 ^ 64

/-- `size_of::<usize>()` on the 64-bit target: 8 bytes. -/
def wordSize : Nat := 8

/-- The bytes of local or foreign memory `m` starting at address `a`,
`n` bytes long (models reading a contiguous buffer). -/
def bytesAt (m : Nat → Nat) (a n : Nat) : List Nat :=
  (List.range n).map (fun i => m (a + i))

/-- Little-endian byte decomposition of a machine word, 8 bytes
(the bytes occupied by a `usize` value on the 64-bit target). -/
def usizeLEBytes (v : Nat) : List Nat :=
  (List.range wordSize).map (fun i => v / 256 ^ i % 256)

/-- The error enum of `src/errors.rs` (`Errors`).  Payloads that carry only
foreign error details (`FromBytesUntilNulError`, `Utf8Error`,
`TryFromIntError`) are dropped; they do not influence control flow. -/
inductive Errors where
  | emptyBuffer (msg : String)
  | processNotFound
  | signatureNotFound
  | noNulByte
  | invalidUtf8
  | intError
deriving DecidableEq

deriving instance DecidableEq for Except

/-- `u32::try_from` on a nonnegative count: succeeds exactly when the value
fits in 32 bits, otherwise produces `Errors::IntError` via the `From`
instance of `src/errors.rs`. -/
def u32TryFrom (n : Nat) : Except Errors Nat :=
  if n < 2 ^ 32 then Except.ok n else Except.error Errors.intError

/-- `str::to_ascii_lowercase`: ASCII-only lowercasing, other characters pass
through unchanged (`Char.toLower` in Lean is exactly the ASCII fold). -/
def toAsciiLower (s : String) : String :=
  String.mk (s.toList.map Char.toLower)

/-- `utils::data_compare(data, sign, mask)` from `src/utils.rs` lines
110-117.  Rust's `mask.len()` is the UTF-8 byte length of the `&str`, while
`mask.chars().enumerate()` numbers the characters; both are reproduced.
Indexing `data[idx]`/`sign[idx]` is in bounds in the source because the
character count never exceeds the byte count, which is bounded by both
lengths after the guard; `List.getD` mirrors it. -/
def data_compare (data sign : List Nat) (mask : String) : Bool :=
  if data.length < mask.utf8ByteSize || sign.length < mask.utf8ByteSize then
    false
  else
    mask.toList.enum.all
      (fun p => (p.2 != 'x') || (data.getD p.1 0 == sign.getD p.1 0))

/-- A window of `sign.length` bytes of memory `m` at address `a` matches the
signature under the mask (the property checked by the scanner for the window
starting at `a`). -/
def matchAt (m : Nat → Nat) (a : Nat) (sign : List Nat) (mask : String) : Bool :=
  data_compare (bytesAt m a sign.length) sign mask

/-- `buffer.windows(sign.len()).position(|w| data_compare(w, sign, mask))`
from `src/utils.rs` lines 79-82, for a non-empty signature: the index of the
first window of length `sign.length` that `data_compare` accepts, if any.
(For an empty signature Rust's `windows(0)` panics; the caller below models
that case separately.) -/
def windowsPos (sign : List Nat) (mask : String) : List Nat → Option Nat
  | [] => none
  | b :: bs =>
    if sign.length ≤ bs.length + 1 then
      if data_compare (List.take sign.length (b :: bs)) sign mask then some 0
      else Option.map (fun j => j + 1) (windowsPos sign mask bs)
    else none

/-- The `MEMORY_BASIC_INFORMATION` fields `find_signature` consumes:
`BaseAddress`, `RegionSize` and whether `State == MEM_FREE`. -/
structure Region where
  baseAddress : Nat
  regionSize : Nat
  free : Bool

/-- Environment abstracting the OS capabilities used by `find_signature`:
`query a` is the `MEMORY_BASIC_INFORMATION` produced by `VirtualQueryEx` at
address `a`, and `mem a` the byte the `ReadProcessMemory` copy delivers into
the local buffer for address `a` (a failed or partial copy is absorbed into
`mem`, matching the ignored return value in the source). -/
structure ScanEnv where
  query : Nat → Region
  mem : Nat → Nat

/-- Outcome of running the `while` loop of `find_signature` with a given
amount of fuel.  `panicked` models an overflow of the plain (non-wrapping)
`+` on `usize` in `base + offset` / `offset += mbi.RegionSize`, or Rust's
`windows(0)` panic for an empty signature; `outOfFuel` means the loop did
not finish within the supplied fuel. -/
inductive ScanResult where
  | found (addr : Nat)
  | notFound
  | panicked
  | outOfFuel
deriving DecidableEq

/-- The `while offset < size` loop of `utils::find_signature`
(`src/utils.rs` lines 57-89), fuel-indexed.  Each iteration queries the
region at `base + offset` (plain `+`, which panics on overflow in
overflow-checked builds), scans non-free regions by reading `RegionSize`
bytes at that address and looking for the first matching window, returns
`Ok(mbi.BaseAddress.wrapping_add(j))` on a hit, and otherwise advances the
cursor by `offset += mbi.RegionSize` (again plain `+`). -/
def findSigLoop (env : ScanEnv) (base size : Nat) (sign : List Nat)
    (mask : String) : Nat → Nat → ScanResult
  | 0, _ => ScanResult.outOfFuel
  | fuel + 1, offset =>
    if offset < size then
      if W ≤ base + offset then ScanResult.panicked
      else if (env.query (base + offset)).free then
        if W ≤ offset + (env.query (base + offset)).regionSize then
          ScanResult.panicked
        else
          findSigLoop env base size sign mask fuel
            (offset + (env.query (base + offset)).regionSize)
      else if sign.length = 0 then ScanResult.panicked
      else
        match windowsPos sign mask
            (bytesAt env.mem (base + offset)
              (env.query (base + offset)).regionSize) with
        | some j =>
          ScanResult.found (((env.query (base + offset)).baseAddress + j) % W)
        | none =>
          if W ≤ offset + (env.query (base + offset)).regionSize then
            ScanResult.panicked
          else
            findSigLoop env base size sign mask fuel
              (offset + (env.query (base + offset)).regionSize)
    else ScanResult.notFound

/-- The result captured by `find_process`: the fields of
`types::ProcessData` it assigns (`handle` as an abstract numeric token,
`id`); `module_list` is irrelevant to the claims (`process_modules` touches
only it). -/
structure PData where
  handle : Nat
  id : Nat
deriving DecidableEq

/-- Environment abstracting the OS capabilities used by `find_process`:
`cbNeeded` is the byte count `EnumProcesses` stores, `pidList` the contents
of the 1024-entry `u32` array after the call, `openOk pid` whether
`get_process_handle(pid)` succeeds, `handleOf pid` the handle it yields, and
`nameOf h` the string produced for handle `h` by
`GetModuleBaseNameA` followed by
`to_string_lowercase().unwrap_or("<Module Name>".to_string())`. -/
structure PEnv where
  cbNeeded : Nat
  pidList : List Nat
  openOk : Nat → Bool
  handleOf : Nat → Nat
  nameOf : Nat → String

/-- `size_of_val(&pid_list)` for `[0u32; 1024]`: 4096 bytes. -/
def pidListByteSize : Nat := 1024 * 4

/-- The candidate iterator of `find_process` (`src/lib.rs` lines 137-141):
take the first `cb_needed / size_of::<u32>()` entries of the PID array,
drop zero PIDs, and keep `(pid, handle)` for the PIDs that open. -/
def findCandidates (env : PEnv) : List (Nat × Nat) :=
  ((env.pidList.take (env.cbNeeded / 4)).filter (fun pid => pid != 0)).filterMap
    (fun pid => if env.openOk pid then some (pid, env.handleOf pid) else none)

/-- The `for` loop of `find_process` (`src/lib.rs` lines 137-159): starting
from `ProcessData::default()` (zero handle and id), every candidate whose
name equals the lowercased target overwrites the captured handle and id;
there is no `break`, so the loop keeps going after a match. -/
def findLoop (env : PEnv) (target : String) : PData :=
  (findCandidates env).foldl
    (fun pd c =>
      if env.nameOf c.2 = toAsciiLower target then { handle := c.2, id := c.1 }
      else pd)
    { handle := 0, id := 0 }

/-- `find_process` (`src/lib.rs` lines 122-166): the `?` on
`u32::try_from(size_of_val(&pid_list))` first, then the enumeration loop,
then `ProcessNotFound` exactly when the captured id is still zero. -/
def find_process (env : PEnv) (process_name : String) : Except Errors PData :=
  match u32TryFrom pidListByteSize with
  | Except.error e => Except.error e
  | Except.ok _ =>
    if (findLoop env process_name).id = 0 then
      Except.error Errors.processNotFound
    else Except.ok (findLoop env process_name)

/-- `read` (`src/lib.rs` lines 196-220), final working address: read a
machine word at `addr` into `next_addr`, then for each offset read a machine
word at `next_addr.wrapping_add(offset as usize)` and replace `next_addr`;
`m a` is the word `ReadProcessMemory` delivers for address `a` (failures
leaving stale data are absorbed into `m`).  The value finally stored through
the caller's buffer by `ptr::write(buffer.cast(), next_addr)` is the result. -/
def read (m : Nat → Nat) (addr : Nat) (offsets : List Nat) : Nat :=
  offsets.foldl (fun next off => m ((next + off) % W)) (m addr)

/-- The contract of §4.6 of the spec, written from the spec's words for the
refinement proof: "read one machine-word-sized value at `base_address` into
a working address.  For each offset in the given order: add the offset to
the working address using wrapping arithmetic, read a machine-word-sized
value at that location, and replace the working address with it." -/
def resolveSpec (m : Nat → Nat) : Nat → List Nat → Nat
  | work, [] => work
  | work, o :: rest => resolveSpec m (m ((work + o) % W)) rest

/-- The byte string `read` stores through the caller's `*mut T` output
pointer: `ptr::write(buffer.cast(), next_addr)` writes the `usize` value
`next_addr`, i.e. exactly the 8 little-endian bytes of the final working
address, independent of `T`. -/
def readOutputBytes (m : Nat → Nat) (addr : Nat) (offsets : List Nat) :
    List Nat :=
  usizeLEBytes (read m addr offsets)

/-- The buffer pointer `write` (`src/lib.rs` lines 248-258) hands to
`WriteProcessMemory`: `addr_of!(value).cast()`, where `value` is the `&T`
parameter itself, so the pointer is the address of the local slot holding
the reference — not the address `value` points at. -/
def writeBufferPtr (valueRefLoc : Nat) : Nat := valueRefLoc

/-- The byte count `write` hands to `WriteProcessMemory`: `size_of::<T>()`. -/
def writeCount (sizeT : Nat) : Nat := sizeT

/-- The bytes of this process's memory `m` that `write` passes to the OS
write-process-memory capability: `writeCount sizeT` bytes starting at the
buffer pointer `writeBufferPtr valueRefLoc` (the location of the `&T`
binding). -/
def writePassedBytes (m : Nat → Nat) (valueRefLoc sizeT : Nat) : List Nat :=
  bytesAt m (writeBufferPtr valueRefLoc) (writeCount sizeT)

/-- The local slot at `loc` holds a reference whose pointer value is `p`:
its 8 bytes are the little-endian bytes of `p`. -/
def storesPtr (m : Nat → Nat) (loc p : Nat) : Prop :=
  bytesAt m loc wordSize = usizeLEBytes p

/-- Concrete local memory exhibiting the `write` bug: the `&T` binding
lives at address 0 and holds the pointer 16 (little-endian bytes
`[16,0,0,0,0,0,0,0]`), and the pointed-to value `v : u64` at address 16 is
42 (bytes `[42,0,0,0,0,0,0,0]`). -/
def mBug : Nat → Nat := fun a =>
  if a < 8 then (usizeLEBytes 16).getD a 0 else if a = 16 then 42 else 0

/-- Claim C1: `write(handle, addr, &v)` is claimed to pass to the OS
write-process-memory capability exactly the `size_of::<T>()` bytes of the
value `v` itself, not the bytes of any pointer to it.  The source instead
passes `addr_of!(value).cast()` — the address of the local `&T` binding —
so at the concrete failing input (reference at 0 holding pointer 16, value
42 stored at 16, `T = u64`) the 8 bytes handed to the capability are the
little-endian bytes of the pointer 16, which differ from the bytes of the
value 42. -/
theorem write_passes_pointer_bytes :
    storesPtr mBug 0 16 ∧
    writePassedBytes mBug 0 wordSize = usizeLEBytes 16 ∧
    bytesAt mBug 16 wordSize = usizeLEBytes 42 ∧
    writePassedBytes mBug 0 wordSize ≠ bytesAt mBug 16 wordSize := by
  refine ⟨?_, by decide, by decide, by decide⟩
  show bytesAt mBug 0 wordSize = usizeLEBytes 16
  decide

/-- Claim C5: `read` first reads a machine word at `addr` and then, for each
offset in order, reads a machine word at the wrapping sum of the working
address and the offset — literally the resolution loop the spec describes
(`resolveSpec`) — and in particular when the word stored at `addr` is `B`
and the offset list is `[O]`, the delivered value is the word stored at the
wrapping sum of `B` and `O`. -/
theorem read_resolves :
    (∀ (m : Nat → Nat) (addr : Nat) (offsets : List Nat),
        read m addr offsets = resolveSpec m (m addr) offsets) ∧
    (∀ (m : Nat → Nat) (addr B O : Nat),
        m addr = B → read m addr [O] = m ((B + O) % W)) := by
  have hfold : ∀ (m : Nat → Nat) (offsets : List Nat) (work : Nat),
      offsets.foldl (fun next off => m ((next + off) % W)) work =
        resolveSpec m work offsets := by
    intro m offsets
    induction offsets with
    | nil => intro work; rfl
    | cons o rest ih => intro work; simpa [resolveSpec] using ih (m ((work + o) % W))
  refine ⟨fun m addr offsets => hfold m offsets (m addr), ?_⟩
  intro m addr B O h
  simp [read, h]

/-- Witness for C5 at a concrete memory: `m0 a = a + 1`, so the word at 0 is
1 and the chain `[2]` delivers the word stored at `(1 + 2) % 2 ^ 64 = 3`,
namely 4. -/
def m0 : Nat → Nat := fun a => a + 1

/-- Witness for the claim C5 theorem at `m0`, `addr = 0`, `B = 1`, `O = 2`. -/
theorem read_resolves_witness :
    m0 0 = 1 ∧ read m0 0 [2] = m0 ((1 + 2) % W) :=
  ⟨rfl, read_resolves.2 m0 0 1 2 rfl⟩

/-- Claim C8: `read` stores through the caller's `*mut T` output pointer the
`size_of::<usize>()` little-endian bytes of the final working address
(`ptr::write(buffer.cast(), next_addr)` writes a `usize` regardless of `T`),
so whenever `size_of::<T>()` is smaller than a machine word, more bytes are
stored through the pointer than a `T` occupies. -/
theorem read_writes_word :
    (∀ (m : Nat → Nat) (addr : Nat) (offsets : List Nat),
        (readOutputBytes m addr offsets).length = wordSize) ∧
    (∀ (m : Nat → Nat) (addr : Nat) (offsets : List Nat) (sizeT : Nat),
        sizeT < wordSize →
        sizeT < (readOutputBytes m addr offsets).length) := by
  have hlen : ∀ (m : Nat → Nat) (addr : Nat) (offsets : List Nat),
      (readOutputBytes m addr offsets).length = wordSize := by
    intro m addr offsets
    simp [readOutputBytes, usizeLEBytes]
  exact ⟨hlen, fun m addr offsets sizeT h => (hlen m addr offsets) ▸ h⟩

/-- Witness for the claim C8 theorem at `m0`, no offsets, `T = u32`
(`size_of::<u32>() = 4 < 8`). -/
theorem read_writes_word_witness :
    4 < wordSize ∧ 4 < (readOutputBytes m0 0 []).length :=
  ⟨by decide, read_writes_word.2 m0 0 [] 4 (by decide)⟩

/-- Claim C10: the only integer conversion `find_process` performs is
`u32::try_from` of the fixed PID buffer's byte size 4096, which always
succeeds, so the `IntegerOverflow` (`IntError`) branch is unreachable and
the only error `find_process` can return is `ProcessNotFound`. -/
theorem find_process_errors :
    u32TryFrom pidListByteSize = Except.ok 4096 ∧
    ∀ (env : PEnv) (name : String),
      find_process env name = Except.error Errors.processNotFound ∨
        ∃ pd, find_process env name = Except.ok pd := by
  refine ⟨by decide, ?_⟩
  intro env name
  by_cases h : (findLoop env name).id = 0
  · left
    simp [find_process, u32TryFrom, pidListByteSize, h]
  · right
    exact ⟨findLoop env name, by simp [find_process, u32TryFrom, pidListByteSize, h]⟩

/-- Pointwise reading of the per-position check of `data_compare`. -/
theorem dcPointwise (data sign : List Nat) (c : Char) (i : Nat) :
    (((c != 'x') || (data.getD i 0 == sign.getD i 0)) = true) ↔
      (c = 'x' → data.getD i 0 = sign.getD i 0) := by
  by_cases hc : c = 'x' <;> simp [hc]

/-- The length guard of `data_compare` passes when both inputs are at least
as long as the mask's byte length, and then the result is the indexed
conjunction over the mask's characters. -/
theorem data_compare_char (data sign : List Nat) (mask : String)
    (hd : mask.utf8ByteSize ≤ data.length)
    (hs : mask.utf8ByteSize ≤ sign.length) :
    data_compare data sign mask = true ↔
      ∀ i (h : i < mask.toList.length),
        mask.toList.get ⟨i, h⟩ = 'x' → data.getD i 0 = sign.getD i 0 := by
  have hguard :
      (data.length < mask.utf8ByteSize || sign.length < mask.utf8ByteSize)
        = false := by
    simp [Nat.not_lt.mpr hd, Nat.not_lt.mpr hs]
  rw [data_compare, if_neg (by simp [Nat.not_lt.mpr hd, Nat.not_lt.mpr hs])]
  rw [List.all_eq_true]
  rw [List.forall_mem_enum]
  constructor
  · intro H i h hx
    have := H i h
    rw [dcPointwise data sign _ i] at this
    exact this (by simpa [List.get_eq_getElem] using hx)
  · intro H i h
    rw [dcPointwise data sign _ i]
    intro hx
    exact H i h (by simpa [List.get_eq_getElem] using hx)

/-- Claim C6: `data_compare(data, sign, mask)` returns false whenever `data`
is shorter than `mask` (byte length); when `data` and `sign` are at least as
long as `mask` it returns true exactly when every position flagged `'x'`
agrees between `data` and `sign`; hence any all-wildcard mask yields true
regardless of content, and a single flagged mismatch forces false. -/
theorem data_compare_spec :
    (∀ (data sign : List Nat) (mask : String),
        data.length < mask.utf8ByteSize → data_compare data sign mask = false) ∧
    (∀ (data sign : List Nat) (mask : String),
        mask.utf8ByteSize ≤ data.length → mask.utf8ByteSize ≤ sign.length →
        (data_compare data sign mask = true ↔
          ∀ i (h : i < mask.toList.length),
            mask.toList.get ⟨i, h⟩ = 'x' → data.getD i 0 = sign.getD i 0)) ∧
    (∀ (data sign : List Nat) (mask : String),
        (∀ c ∈ mask.toList, c ≠ 'x') →
        mask.utf8ByteSize ≤ data.length → mask.utf8ByteSize ≤ sign.length →
        data_compare data sign mask = true) ∧
    (∀ (data sign : List Nat) (mask : String) (i : Nat)
        (h : i < mask.toList.length),
        mask.toList.get ⟨i, h⟩ = 'x' → data.getD i 0 ≠ sign.getD i 0 →
        data_compare data sign mask = false) := by
  refine ⟨?_, data_compare_char, ?_, ?_⟩
  · intro data sign mask hlt
    simp [data_compare, hlt]
  · intro data sign mask hall hd hs
    rw [data_compare_char data sign mask hd hs]
    intro i h hx
    exact absurd hx (hall _ (List.get_mem _ _ h))
  · intro data sign mask i h hx hne
    cases hB : data_compare data sign mask with
    | false => rfl
    | true =>
      exfalso
      have hd : mask.utf8ByteSize ≤ data.length := by
        by_contra hlt
        rw [data_compare, if_pos (by simp [Nat.lt_of_not_le hlt])] at hB
        exact Bool.false_ne_true hB
      have hs : mask.utf8ByteSize ≤ sign.length := by
        by_contra hlt
        rw [data_compare, if_pos (by simp [Nat.lt_of_not_le hlt])] at hB
        exact Bool.false_ne_true hB
      exact hne (((data_compare_char data sign mask hd hs).mp hB) i h hx)

/-- Witness for the claim C6 theorem: mask `"x?"`, `data = [1,2]`,
`sign = [1,9]` — the only flagged position 0 agrees, so the iff yields
true. -/
theorem data_compare_spec_witness :
    ("x?".utf8ByteSize ≤ ([1, 2] : List Nat).length ∧
      "x?".utf8ByteSize ≤ ([1, 9] : List Nat).length) ∧
    data_compare [1, 2] [1, 9] "x?" = true :=
  ⟨⟨by decide, by decide⟩,
    (data_compare_spec.2.1 [1, 2] [1, 9] "x?" (by decide) (by decide)).mpr
      (by decide)⟩

/-- Enumeration in which PIDs 3 and 5 are both openable and both decode to
the name `a.exe` (`cb_needed = 8` bytes, i.e. two live entries; handles are
`pid + 100`). -/
def envTwoMatches : PEnv :=
  ⟨8, [3, 5], fun _ => true, fun pid => pid + 100, fun _ => "a.exe"⟩

/-- Claim C3: with more than one openable process named like the target,
`find_process` is claimed to return the first match in enumeration order.
The loop body has no `break`, so each later match overwrites the captured
record: at the concrete enumeration `[3, 5]` with both processes named
`a.exe`, the function returns id 5 and handle 105 — the last match — not
the first match 3. -/
theorem find_process_last_match :
    find_process envTwoMatches "a.exe" = Except.ok ⟨105, 5⟩ ∧
    (5 : Nat) ≠ 3 := by
  refine ⟨by decide, by decide⟩

/-- Enumeration containing one openable process whose decoded name is the
empty string (a `GetModuleBaseNameA` buffer whose first byte is the NUL
terminator decodes to `""`). -/
def envEmptyName : PEnv :=
  ⟨4, [7], fun _ => true, fun pid => pid + 100, fun _ => ""⟩

/-- Counterexample to claim C4: for the empty target name `find_process` is
claimed to fail with `ProcessNotFound` without enumerating; instead it
enumerates as usual, and on an enumeration containing an openable process
whose decoded name is empty it even succeeds, returning that process. -/
theorem find_process_empty_cex :
    find_process envEmptyName "" = Except.ok ⟨107, 7⟩ := by
  decide

/-- Claim C4 (amended): `find_process` does not special-case the empty
target: it still enumerates, and with an empty target it fails with
`ProcessNotFound` exactly when no enumerated, openable candidate's decoded
name is itself empty (otherwise that candidate is matched and returned). -/
theorem find_process_empty (env : PEnv)
    (h : ∀ c ∈ findCandidates env, env.nameOf c.2 ≠ "") :
    find_process env "" = Except.error Errors.processNotFound := by
  have hlower : toAsciiLower "" = "" := rfl
  have hloop : ∀ (l : List (Nat × Nat)), (∀ c ∈ l, env.nameOf c.2 ≠ "") →
      ∀ pd : PData,
        l.foldl
          (fun pd c =>
            if env.nameOf c.2 = toAsciiLower "" then { handle := c.2, id := c.1 }
            else pd) pd = pd := by
    intro l
    induction l with
    | nil => intro _ pd; rfl
    | cons c rest ih =>
      intro hall pd
      have hc : env.nameOf c.2 ≠ "" := hall c (List.mem_cons_self c rest)
      have : (if env.nameOf c.2 = toAsciiLower "" then
          ({ handle := c.2, id := c.1 } : PData) else pd) = pd := by
        rw [hlower, if_neg hc]
      simp only [List.foldl_cons, this]
      exact ih (fun d hd => hall d (List.mem_cons_of_mem c hd)) pd
  have hid : (findLoop env "").id = 0 := by
    rw [findLoop, hloop (findCandidates env) h { handle := 0, id := 0 }]
  simp [find_process, u32TryFrom, pidListByteSize, hid]

/-- Enumeration with one openable candidate named `x` (not empty). -/
def envNamedX : PEnv :=
  ⟨4, [7], fun _ => true, fun pid => pid + 100, fun _ => "x"⟩

/-- Witness for the amended claim C4 theorem at `envNamedX`: its single
candidate's name is non-empty, so the empty target fails with
`ProcessNotFound`. -/
theorem find_process_empty_witness :
    (∀ c ∈ findCandidates envNamedX, envNamedX.nameOf c.2 ≠ "") ∧
    find_process envNamedX "" = Except.error Errors.processNotFound :=
  ⟨by decide, find_process_empty envNamedX (by decide)⟩

/-- Soundness of the window search: a reported index is in range, its window
matches, and every earlier window fails. -/
theorem windowsPos_sound (sign : List Nat) (mask : String) :
    ∀ (buf : List Nat) (j : Nat), windowsPos sign mask buf = some j →
      j + sign.length ≤ buf.length ∧
      data_compare (List.take sign.length (List.drop j buf)) sign mask = true ∧
      ∀ i, i < j →
        data_compare (List.take sign.length (List.drop i buf)) sign mask
          = false := by
  intro buf
  induction buf with
  | nil => intro j h; simp [windowsPos] at h
  | cons b bs ih =>
    intro j h
    rw [windowsPos] at h
    split at h
    case isTrue hlen =>
      split at h
      case isTrue hdc =>
        have hj : j = 0 := by
          injection h with h'
          exact h'.symm
        subst hj
        refine ⟨by simpa using hlen, by simpa using hdc, ?_⟩
        intro i hi
        exact absurd hi (Nat.not_lt_zero i)
      case isFalse hdc =>
        rcases Option.map_eq_some'.mp h with ⟨j', hj', hjeq⟩
        subst hjeq
        rcases ih j' hj' with ⟨h1, h2, h3⟩
        refine ⟨by simp only [List.length_cons]; omega, ?_, ?_⟩
        · simpa [List.drop_succ_cons] using h2
        · intro i hi
          cases i with
          | zero =>
            simpa using Bool.not_eq_true _ ▸ (by simpa using hdc)
          | succ i' =>
            have : i' < j' := Nat.lt_of_succ_lt_succ hi
            simpa [List.drop_succ_cons] using h3 i' this
    case isFalse hlen => simp at h

/-- Completeness of the window search: if some in-range window matches, the
search reports a hit (signature non-empty). -/
theorem windowsPos_isSome (sign : List Nat) (mask : String) (hs : sign ≠ []) :
    ∀ (buf : List Nat) (i : Nat), i + sign.length ≤ buf.length →
      data_compare (List.take sign.length (List.drop i buf)) sign mask
        = true →
      (windowsPos sign mask buf).isSome = true := by
  have hpos : 0 < sign.length := List.length_pos.mpr hs
  intro buf
  induction buf with
  | nil =>
    intro i hle _
    rw [List.length_nil] at hle
    omega
  | cons b bs ih =>
    intro i hle hdc
    rw [windowsPos]
    have hlen : sign.length ≤ bs.length + 1 := by
      have : i + sign.length ≤ bs.length + 1 := by simpa using hle
      omega
    rw [if_pos hlen]
    cases i with
    | zero =>
      have hx : data_compare (List.take sign.length (b :: bs)) sign mask
          = true := by simpa using hdc
      rw [hx]
      simp
    | succ i' =>
      cases hdc1 : data_compare (List.take sign.length (b :: bs)) sign mask
      · simp only [Bool.false_eq_true, if_false]
        have hrec := ih i' (by simp only [List.length_cons] at hle; omega)
          (by simpa [List.drop_succ_cons] using hdc)
        cases hx : windowsPos sign mask bs with
        | some j => simp
        | none => rw [hx] at hrec; simp at hrec
      · simp

/-- The window of the scanner's local buffer at in-buffer index `i` is
exactly the memory bytes at address `a + i`. -/
theorem bytesAt_window (m : Nat → Nat) (a n s i : Nat) (h : i + s ≤ n) :
    List.take s (List.drop i (bytesAt m a n)) = bytesAt m (a + i) s := by
  apply List.ext_getElem
  · simp [bytesAt]
    omega
  · intro k hk1 hk2
    simp [bytesAt, List.getElem_take, List.getElem_drop, List.getElem_map,
      List.getElem_range]
    congr 1
    omega

/-- Scan environment in which the region query at the scan address 5
reports the page-aligned region base 0 (as `VirtualQueryEx` does for any
query address that is not at the start of its region): one committed
16-byte region, with the single signature byte 99 stored at address 5. -/
def envMisaligned : ScanEnv :=
  ⟨fun _ => ⟨0, 16, false⟩, fun a => if a = 5 then 99 else 0⟩

/-- Counterexample to claim C2: scanning from base 5 (size 10) for the
signature `[99]` with mask `"x"`, the range contains an occurrence whose
true absolute start address is 5 (and no earlier one), yet `find_signature`
returns `mbi.BaseAddress + j = 0 + 0 = 0`, because the buffer is read at the
query address 5 while the returned address is formed from the reported
region base 0. -/
theorem find_signature_misaligned_cex :
    findSigLoop envMisaligned 5 10 [99] "x" 11 0 = ScanResult.found 0 ∧
    matchAt envMisaligned.mem 5 [99] "x" = true ∧
    (0 : Nat) ≠ 5 := by
  refine ⟨by decide, by decide, by decide⟩

/-- Claim C2 (amended): `find_signature` returns reported-region-base plus
in-buffer offset; this is the true absolute start address of the earliest
occurrence whenever the region query reports a base address equal to the
queried address.  Concretely: if the region containing `base` is non-free,
reports its base as `base` itself, fits below `2 ^ 64`, and its buffer
contains an occurrence of the (non-empty) signature, then the scan returns
`base + j` where `base + j` is the true start of the earliest matching
window, windows being tried in ascending offset order. -/
theorem find_signature_first_region_correct
    (env : ScanEnv) (base size : Nat) (sign : List Nat) (mask : String)
    (hsize : 0 < size) (hbase : base < W)
    (hfree : (env.query base).free = false)
    (halign : (env.query base).baseAddress = base)
    (hfit : base + (env.query base).regionSize ≤ W)
    (hs : sign ≠ [])
    (hex : ∃ i, i + sign.length ≤ (env.query base).regionSize ∧
        matchAt env.mem (base + i) sign mask = true) :
    ∃ j, j + sign.length ≤ (env.query base).regionSize ∧
      matchAt env.mem (base + j) sign mask = true ∧
      (∀ i, i < j → matchAt env.mem (base + i) sign mask = false) ∧
      ∀ fuel, findSigLoop env base size sign mask (fuel + 1) 0 =
        ScanResult.found (base + j) := by
  have hpos : 0 < sign.length := List.length_pos.mpr hs
  rcases hex with ⟨i0, hi0, hm0⟩
  have hbuflen :
      (bytesAt env.mem base (env.query base).regionSize).length
        = (env.query base).regionSize := by
    simp [bytesAt]
  have hwin0 :
      List.take sign.length
          (List.drop i0 (bytesAt env.mem base (env.query base).regionSize))
        = bytesAt env.mem (base + i0) sign.length :=
    bytesAt_window env.mem base (env.query base).regionSize sign.length i0 hi0
  have hsome :
      (windowsPos sign mask
          (bytesAt env.mem base (env.query base).regionSize)).isSome
        = true := by
    apply windowsPos_isSome sign mask hs _ i0
    · rw [hbuflen]; exact hi0
    · rw [hwin0]; exact hm0
  rcases Option.isSome_iff_exists.mp hsome with ⟨j, hj⟩
  rcases windowsPos_sound sign mask _ j hj with ⟨h1, h2, h3⟩
  rw [hbuflen] at h1
  have hwinj :
      List.take sign.length
          (List.drop j (bytesAt env.mem base (env.query base).regionSize))
        = bytesAt env.mem (base + j) sign.length :=
    bytesAt_window env.mem base (env.query base).regionSize sign.length j h1
  refine ⟨j, h1, by rw [matchAt, ← hwinj]; exact h2, ?_, ?_⟩
  · intro i hi
    have hle : i + sign.length ≤ (env.query base).regionSize := by omega
    have hwini :
        List.take sign.length
            (List.drop i (bytesAt env.mem base (env.query base).regionSize))
          = bytesAt env.mem (base + i) sign.length :=
      bytesAt_window env.mem base (env.query base).regionSize sign.length i hle
    rw [matchAt, ← hwini]
    exact h3 i hi
  · intro fuel
    have hmod : (base + j) % W = base + j := by
      apply Nat.mod_eq_of_lt
      omega
    rw [findSigLoop, if_pos hsize]
    rw [if_neg (by rw [Nat.add_zero]; exact Nat.not_le.mpr hbase)]
    rw [Nat.add_zero]
    rw [if_neg (by rw [hfree]; exact Bool.false_ne_true)]
    rw [if_neg (by omega)]
    rw [hj, halign]
    simp [hmod]

/-- Witness environment for the amended claim C2 theorem: one committed
4-byte region based at 0, the signature byte 7 stored at address 1. -/
def envAligned : ScanEnv :=
  ⟨fun _ => ⟨0, 4, false⟩, fun a => if a = 1 then 7 else 0⟩

/-- Witness for the amended claim C2 theorem at `envAligned`, base 0,
size 10, signature `[7]`, mask `"x"`: all hypotheses hold concretely and
the scan finds the occurrence at the true start address. -/
theorem find_signature_first_region_correct_witness :
    (0 < 10 ∧ (0 : Nat) < W ∧ (envAligned.query 0).free = false ∧
      (envAligned.query 0).baseAddress = 0 ∧
      0 + (envAligned.query 0).regionSize ≤ W ∧ ([7] : List Nat) ≠ []) ∧
    ∃ j, j + ([7] : List Nat).length ≤ (envAligned.query 0).regionSize ∧
      matchAt envAligned.mem (0 + j) [7] "x" = true ∧
      (∀ i, i < j → matchAt envAligned.mem (0 + i) [7] "x" = false) ∧
      ∀ fuel, findSigLoop envAligned 0 10 [7] "x" (fuel + 1) 0 =
        ScanResult.found (0 + j) :=
  ⟨⟨by decide, by decide, by decide, by decide, by decide, by decide⟩,
    find_signature_first_region_correct envAligned 0 10 [7] "x" (by decide)
      (by decide) (by decide) (by decide) (by decide) (by decide)
      ⟨1, by decide, by decide⟩⟩

/-- Scan environment with free one-byte regions everywhere (the scan just
steps the cursor). -/
def envFreeStep : ScanEnv := ⟨fun _ => ⟨0, 1, true⟩, fun _ => 0⟩

/-- Counterexample to claim C7: the claim says all address arithmetic in
the scan wraps rather than panics, so inputs near the top of the address
space never crash it.  With `base = 2 ^ 64 - 1` and `size = 2`, after one
free 1-byte region the cursor is 1 and the plain addition `base + offset`
overflows the machine word, so the scan panics (in overflow-checked builds)
rather than wrapping. -/
theorem find_signature_overflow_cex :
    findSigLoop envFreeStep (2 ^ 64 - 1) 2 [1] "x" 3 0 =
      ScanResult.panicked := by
  decide

/-- Claim C7 (amended): only the returned match address is formed with
wrapping arithmetic (it is always reduced modulo `2 ^ 64`); the query
address `base + offset` and the cursor advance `offset += RegionSize` use
plain `+`, which panics on overflow in overflow-checked builds instead of
wrapping — whenever the cursor is still in range but `base + offset`
reaches `2 ^ 64`, the scan panics. -/
theorem find_signature_arith :
    (∀ (env : ScanEnv) (base size : Nat) (sign : List Nat) (mask : String)
        (fuel offset r : Nat),
        findSigLoop env base size sign mask fuel offset = ScanResult.found r →
        r < W) ∧
    (∀ (env : ScanEnv) (base size : Nat) (sign : List Nat) (mask : String)
        (fuel offset : Nat), offset < size → W ≤ base + offset →
        findSigLoop env base size sign mask (fuel + 1) offset =
          ScanResult.panicked) := by
  constructor
  · intro env base size sign mask fuel
    induction fuel with
    | zero =>
      intro offset r h
      exact ScanResult.noConfusion h
    | succ f ih =>
      intro offset r h
      rw [findSigLoop] at h
      split at h
      · split at h
        · exact ScanResult.noConfusion h
        · split at h
          · split at h
            · exact ScanResult.noConfusion h
            · exact ih _ _ h
          · split at h
            · exact ScanResult.noConfusion h
            · split at h
              · rename_i j _
                injection h with h'
                subst h'
                exact Nat.mod_lt _ (by decide)
              · split at h
                · exact ScanResult.noConfusion h
                · exact ih _ _ h
      · exact ScanResult.noConfusion h
  · intro env base size sign mask fuel offset hlt hov
    rw [findSigLoop, if_pos hlt, if_pos hov]

/-- Witness for the amended claim C7 theorem: with the cursor in range and
`base = 2 ^ 64`, the checked addition overflows and the scan panics. -/
theorem find_signature_arith_witness :
    ((0 : Nat) < 1 ∧ W ≤ 2 ^ 64 + 0) ∧
    findSigLoop envFreeStep (2 ^ 64) 1 [1] "x" 1 0 = ScanResult.panicked :=
  ⟨⟨by decide, by decide⟩,
    find_signature_arith.2 envFreeStep (2 ^ 64) 1 [1] "x" 0 0 (by decide)
      (by decide)⟩

/-- With every queried region strictly positive in size, the cursor strictly
increases each iteration, so fuel `size + 1` (counting from cursor 0) always
suffices: the loop never runs out of fuel. -/
theorem findSigLoop_fuel (env : ScanEnv) (base size : Nat) (sign : List Nat)
    (mask : String) (hq : ∀ a, 0 < (env.query a).regionSize) :
    ∀ (fuel offset : Nat), size ≤ offset + fuel →
      findSigLoop env base size sign mask (fuel + 1) offset ≠
        ScanResult.outOfFuel := by
  intro fuel
  induction fuel with
  | zero =>
    intro offset hle
    rw [findSigLoop, if_neg (by omega)]
    exact fun h => ScanResult.noConfusion h
  | succ f ih =>
    intro offset hle
    rw [findSigLoop]
    by_cases hlt : offset < size
    · rw [if_pos hlt]
      by_cases hov : W ≤ base + offset
      · rw [if_pos hov]; exact fun h => ScanResult.noConfusion h
      · rw [if_neg hov]
        by_cases hfree : (env.query (base + offset)).free = true
        · rw [if_pos hfree]
          by_cases hov2 : W ≤ offset + (env.query (base + offset)).regionSize
          · rw [if_pos hov2]; exact fun h => ScanResult.noConfusion h
          · rw [if_neg hov2]
            apply ih
            have := hq (base + offset)
            omega
        · rw [if_neg hfree]
          by_cases hzero : sign.length = 0
          · rw [if_pos hzero]; exact fun h => ScanResult.noConfusion h
          · rw [if_neg hzero]
            cases hw : windowsPos sign mask
                (bytesAt env.mem (base + offset)
                  (env.query (base + offset)).regionSize) with
            | some j =>
              exact fun h => ScanResult.noConfusion h
            | none =>
              show (if W ≤ offset + (env.query (base + offset)).regionSize
                  then ScanResult.panicked
                  else findSigLoop env base size sign mask (f + 1)
                    (offset + (env.query (base + offset)).regionSize)) ≠
                ScanResult.outOfFuel
              by_cases hov2 :
                  W ≤ offset + (env.query (base + offset)).regionSize
              · rw [if_pos hov2]; exact fun h => ScanResult.noConfusion h
              · rw [if_neg hov2]
                apply ih
                have := hq (base + offset)
                omega
    · rw [if_neg hlt]
      exact fun h => ScanResult.noConfusion h

/-- With the region at `base` reported free and of size zero, the cursor
never advances: every fuel is exhausted. -/
theorem findSigLoop_stuck (env : ScanEnv) (base size : Nat) (sign : List Nat)
    (mask : String) (hsize : 0 < size) (hbase : base < W)
    (hz : (env.query base).regionSize = 0)
    (hfree : (env.query base).free = true) :
    ∀ fuel, findSigLoop env base size sign mask fuel 0 =
      ScanResult.outOfFuel := by
  intro fuel
  induction fuel with
  | zero => rfl
  | succ f ih =>
    rw [findSigLoop, if_pos hsize]
    rw [if_neg (by rw [Nat.add_zero]; exact Nat.not_le.mpr hbase)]
    rw [Nat.add_zero, if_pos hfree]
    rw [if_neg (by rw [hz]; exact Nat.not_le.mpr (by decide))]
    rw [hz]
    exact ih

/-- Claim C9: under the precondition that every region query reports a
strictly positive region size, `find_signature` terminates (fuel `size + 1`
suffices for the whole scan); without it — a query reporting region size
zero — the cursor does not advance and the loop never finishes, whatever
the fuel. -/
theorem find_signature_termination :
    (∀ (env : ScanEnv) (base size : Nat) (sign : List Nat) (mask : String),
        (∀ a, 0 < (env.query a).regionSize) →
        findSigLoop env base size sign mask (size + 1) 0 ≠
          ScanResult.outOfFuel) ∧
    (∀ (env : ScanEnv) (base size : Nat) (sign : List Nat) (mask : String),
        0 < size → base < W → (env.query base).regionSize = 0 →
        (env.query base).free = true →
        ∀ fuel, findSigLoop env base size sign mask fuel 0 =
          ScanResult.outOfFuel) := by
  constructor
  · intro env base size sign mask hq
    exact findSigLoop_fuel env base size sign mask hq size 0 (by omega)
  · intro env base size sign mask hsize hbase hz hfree
    exact findSigLoop_stuck env base size sign mask hsize hbase hz hfree

/-- Scan environment whose region at every address is free with size 0: the
degenerate case the second half of claim C9 describes. -/
def envZeroRegion : ScanEnv := ⟨fun _ => ⟨0, 0, true⟩, fun _ => 0⟩

/-- Witness for the claim C9 theorem: `envFreeStep` has all regions of size
1 and the scan of size 5 finishes within fuel 6, while `envZeroRegion` gets
stuck at every fuel. -/
theorem find_signature_termination_witness :
    findSigLoop envFreeStep 0 5 [1] "x" 6 0 ≠ ScanResult.outOfFuel ∧
    findSigLoop envZeroRegion 0 5 [1] "x" 7 0 = ScanResult.outOfFuel :=
  ⟨find_signature_termination.1 envFreeStep 0 5 [1] "x" (fun _ => Nat.one_pos),
    find_signature_termination.2 envZeroRegion 0 5 [1] "x" (by decide)
      (by decide) (by decide) (by decide) 7⟩

end Gamehack
